import Mathlib

/-!
Verification of the go-libshell core (`shell.go`), shallowly embedded in Lean.

Bytes are modelled as `Nat` (the newline byte is `10`), byte slices as
`List Nat`, and Go strings produced from byte slices are kept as the byte
lists themselves.  The line callback is modelled by its observable effect:
each operation returns, next to the updated state, the list of lines it
passed to the callback, in invocation order.  A Go `panic` is modelled by
`Option`/`Except` (with `none`/`.error` standing for the aborted call).
-/

namespace shell

/-- Stream tag for stdout (`STDOUT = 1` in the source). -/
def STDOUT : Nat := 1

/-- Stream tag for stderr (`STDERR = 2` in the source). -/
def STDERR : Nat := 2

/-- `bytes.IndexByte`: index of the first occurrence of `c` in `l`
(`none` models Go's `-1`). -/
def indexByte : List Nat → Nat → Option Nat
  | [], _ => none
  | a :: l, c => if a = c then some 0 else (indexByte l c).map (· + 1)

/-- `simpleGrowingBuffer`: an append-only byte accumulator with the
offset of the already-consumed prefix. -/
structure simpleGrowingBuffer where
  byteBuffer : List Nat
  LastNewlineOffset : Nat
deriving DecidableEq, Repr

namespace simpleGrowingBuffer

/-- `len(this.byteBuffer) - this.LastNewlineOffset`. -/
def SliceLength (b : simpleGrowingBuffer) : Nat :=
  b.byteBuffer.length - b.LastNewlineOffset

/-- `this.byteBuffer[this.LastNewlineOffset:]`. -/
def Slice (b : simpleGrowingBuffer) : List Nat :=
  b.byteBuffer.drop b.LastNewlineOffset

/-- `this.byteBuffer[this.LastNewlineOffset : this.LastNewlineOffset+count]`. -/
def SliceNext (b : simpleGrowingBuffer) (count : Nat) : List Nat :=
  b.Slice.take count

/-- `Reset`: drop everything, offset to 0. -/
def Reset (_ : simpleGrowingBuffer) : simpleGrowingBuffer :=
  { byteBuffer := [], LastNewlineOffset := 0 }

/-- `Truncate`: keep only the unconsumed slice, offset to 0. -/
def Truncate (b : simpleGrowingBuffer) : simpleGrowingBuffer :=
  { byteBuffer := b.Slice, LastNewlineOffset := 0 }

/-- `IncrementOffset`. -/
def IncrementOffset (b : simpleGrowingBuffer) (delta : Nat) : simpleGrowingBuffer :=
  { b with LastNewlineOffset := b.LastNewlineOffset + delta }

/-- `Append`. -/
def Append (b : simpleGrowingBuffer) (p : List Nat) : simpleGrowingBuffer :=
  { b with byteBuffer := b.byteBuffer ++ p }

/-- `ToString`: the whole accumulated byte history. -/
def ToString (b : simpleGrowingBuffer) : List Nat :=
  b.byteBuffer
end simpleGrowingBuffer

/-- `CompositeWriter`.  The Go `Type` field is renamed `StreamType`
(`Type` is reserved in Lean); the function-valued `callback` field is
modelled by its presence (`hasCallback`), every invocation being recorded
in the emission lists returned by `Write`/`Finalize`. -/
structure CompositeWriter where
  StreamType : Nat
  buffer : simpleGrowingBuffer
  keepBuffer : Bool
  hasCallback : Bool
  callbackPayload : Int
deriving DecidableEq, Repr

/-- `NewCompositeWriter`. -/
def NewCompositeWriter (t : Nat) (hasCb : Bool) (payload : Int) (keepBuffer : Bool) :
    CompositeWriter :=
  { StreamType := t
    buffer := { byteBuffer := [], LastNewlineOffset := 0 }
    keepBuffer := keepBuffer
    hasCallback := hasCb
    callbackPayload := payload }

/-- The newline-extraction loop of `CompositeWriter.Write`:

    pos := bytes.IndexByte(this.buffer.Slice(), '\n')
    for pos != -1 { emit line; IncrementOffset(pos+1); rescan }

Each iteration consumes `pos+1 ≥ 1` unconsumed bytes, so the unconsumed
length bounds the number of iterations; the loop is run with that fuel. -/
def extractLinesFuel : Nat → simpleGrowingBuffer → List (List Nat) × simpleGrowingBuffer
  | 0, b => ([], b)
  | fuel + 1, b =>
    match indexByte b.Slice 10 with
    | none => ([], b)
    | some pos =>
      let line := b.SliceNext pos
      let r := extractLinesFuel fuel (b.IncrementOffset (pos + 1))
      (line :: r.1, r.2)

/-- The newline-extraction loop, with the sufficient fuel supplied. -/
def extractLines (b : simpleGrowingBuffer) : List (List Nat) × simpleGrowingBuffer :=
  extractLinesFuel b.SliceLength b

/-- `CompositeWriter.Write`: append the chunk; if a callback is registered,
emit every complete line and, when at least one line was found
(`foundSmth`) and retention is off, truncate the buffer.  The returned
list holds the lines passed to the callback, in order.  (The Go method
additionally returns `(len(p), nil)` unconditionally.) -/
def CompositeWriter.Write (cw : CompositeWriter) (p : List Nat) :
    CompositeWriter × List (List Nat) :=
  let b := cw.buffer.Append p
  if cw.hasCallback then
    let r := extractLines b
    let foundSmth := !r.1.isEmpty
    let b2 := if foundSmth && !cw.keepBuffer then r.2.Truncate else r.2
    ({ cw with buffer := b2 }, r.1)
  else
    ({ cw with buffer := b }, [])

/-- `CompositeWriter.Finalize`: if a callback is registered and unconsumed
bytes remain, emit them as one last line, then `Reset` (retention off) or
advance past them (retention on). -/
def CompositeWriter.Finalize (cw : CompositeWriter) :
    CompositeWriter × List (List Nat) :=
  if cw.hasCallback then
    let pos := cw.buffer.SliceLength
    if 0 < pos then
      let line := cw.buffer.SliceNext pos
      let b2 := if !cw.keepBuffer then cw.buffer.Reset else cw.buffer.IncrementOffset pos
      ({ cw with buffer := b2 }, [line])
    else (cw, [])
  else (cw, [])

/-- `CompositeWriter.ToString`: panics (`none`) when `keepBuffer` is false,
otherwise returns the full accumulated history. -/
def CompositeWriter.ToString (cw : CompositeWriter) : Option (List Nat) :=
  if cw.keepBuffer = false then none
  else some cw.buffer.ToString

/-- A sequence of `Write` calls, collecting every callback invocation. -/
def runWrites : CompositeWriter → List (List Nat) → CompositeWriter × List (List Nat)
  | cw, [] => (cw, [])
  | cw, p :: ps =>
    let r := cw.Write p
    let rest := runWrites r.1 ps
    (rest.1, r.2 ++ rest.2)

/-- Reference decomposition of a byte stream into its newline-terminated
lines (terminators excluded) and the trailing remainder after the last
newline. -/
def splitNL : List Nat → List (List Nat) × List Nat
  | [] => ([], [])
  | c :: rest =>
    let r := splitNL rest
    if c = 10 then ([] :: r.1, r.2)
    else
      match r.1 with
      | [] => ([], c :: r.2)
      | l :: ls => ((c :: l) :: ls, r.2)

/-- Length of the pending (unterminated) tail of a stream. -/
def pendingLen (w : List Nat) : Nat := (splitNL w).2.length

/-- The longest pending (unterminated) line over all byte-prefixes of the
stream `w`. -/
def maxPending (w : List Nat) : Nat :=
  (((List.range (w.length + 1)).map fun k => pendingLen (w.take k))).foldr max 0

/-- Errors returned (as Go `error` values) by `Begin`/`Run`. -/
inductive GoError where
  | pipeError (stream : Nat)
  | startError
  | readError (stream : Nat)
  | waitOtherError
deriving DecidableEq, Repr

/-- Outcome of the external `cmd.Wait()` collaborator, as classified by
`Run`: clean termination, an `*exec.ExitError` whose `Sys()` does
(`some status`) or does not (`none`, the "cannot retrieve exit code"
panic path) convert to a `syscall.WaitStatus`, or any other wait error. -/
inductive WaitResult where
  | success
  | exitError (status : Option Int)
  | otherError
deriving DecidableEq, Repr

/-- The `*exec.Cmd` handle, reduced to the fields the source reads or
writes: whether `cmd.Process` is non-nil, the `cmd.Stdout`/`cmd.Stderr`
sinks (`some` when a `*CompositeWriter` is attached), and `cmd.Env`. -/
structure WrappedCmd where
  ProcessStarted : Bool
  StdoutSink : Option CompositeWriter
  StderrSink : Option CompositeWriter
  Env : Option (List String)
deriving DecidableEq, Repr

/-- `CommandExecution`.  The pipe readers are modelled by their presence,
captured output by byte lists. -/
structure CommandExecution where
  Command : String
  Args : List String
  Environment : Option (List (String × String))
  LogExecution : Bool
  AutoReadStdout : Bool
  AutoReadStderr : Bool
  WrappedCmd : Option WrappedCmd
  StdoutReader : Bool
  StderrReader : Bool
  Stdout : List Nat
  Stderr : List Nat
  ExitCode : Int
deriving DecidableEq, Repr

/-- Byte list of an ASCII string (for the sentinel texts set by `New`). -/
def strB (s : String) : List Nat := s.data.map fun c => c.toNat

/-- Behaviour of the external collaborators during one execution: whether
each pipe attachment, the start and each bulk read succeed, the inherited
environment, the bytes each bulk read yields, and the wait outcome. -/
structure ExecEnv where
  stdoutPipeOk : Bool
  stderrPipeOk : Bool
  osEnviron : List String
  startOk : Bool
  stdoutReadOk : Bool
  stderrReadOk : Bool
  stdoutData : List Nat
  stderrData : List Nat
  waitResult : WaitResult
deriving DecidableEq, Repr

/-- `New`: fresh request with auto-read on, sentinel outputs and the
sentinel exit code `-1`. -/
def New (command : String) (args : List String) : CommandExecution :=
  { Command := command
    Args := args
    Environment := none
    LogExecution := false
    AutoReadStdout := true
    AutoReadStderr := true
    WrappedCmd := none
    StdoutReader := false
    StderrReader := false
    Stdout := strB "-- stdout: this command has never been executed --"
    Stderr := strB "-- stderr: this command has never been executed --"
    ExitCode := -1 }

/-- `CommandExecution.Begin`: attach the stdout pipe (returning its error
before any further mutation on failure), then the stderr pipe, build the
environment, and only when every step succeeded assign `WrappedCmd`. -/
def CommandExecution.Begin (self : CommandExecution) (env : ExecEnv) :
    CommandExecution × Option GoError :=
  if self.AutoReadStdout && !env.stdoutPipeOk then
    (self, some (GoError.pipeError STDOUT))
  else
    let self1 := if self.AutoReadStdout then { self with StdoutReader := true } else self
    if self1.AutoReadStderr && !env.stderrPipeOk then
      (self1, some (GoError.pipeError STDERR))
    else
      let self2 := if self1.AutoReadStderr then { self1 with StderrReader := true } else self1
      let cmdEnv : Option (List String) :=
        match self2.Environment with
        | none => none
        | some overrides =>
          some (env.osEnviron ++ overrides.map fun kv => kv.1 ++ "=" ++ kv.2)
      ({ self2 with
          WrappedCmd := some
            { ProcessStarted := false, StdoutSink := none, StderrSink := none, Env := cmdEnv } },
        none)

/-- The stdout arm of `Run`'s sink-finalization switch: when
`cmd.Stdout` is a `*CompositeWriter`, finalize it and, in retention mode,
grab its history into `Stdout` (`ToString` cannot panic there, being
guarded by `keepBuffer`) and reset its buffer. -/
def finalizeStdoutSink (self : CommandExecution) : CommandExecution :=
  match self.WrappedCmd with
  | none => self
  | some wc =>
    match wc.StdoutSink with
    | none => self
    | some cw =>
      let cw1 := cw.Finalize.1
      if cw1.keepBuffer then
        { self with
            Stdout := cw1.buffer.ToString
            WrappedCmd := some { wc with StdoutSink := some { cw1 with buffer := cw1.buffer.Reset } } }
      else { self with WrappedCmd := some { wc with StdoutSink := some cw1 } }

/-- The stderr arm of `Run`'s sink-finalization switch. -/
def finalizeStderrSink (self : CommandExecution) : CommandExecution :=
  match self.WrappedCmd with
  | none => self
  | some wc =>
    match wc.StderrSink with
    | none => self
    | some cw =>
      let cw1 := cw.Finalize.1
      if cw1.keepBuffer then
        { self with
            Stderr := cw1.buffer.ToString
            WrappedCmd := some { wc with StderrSink := some { cw1 with buffer := cw1.buffer.Reset } } }
      else { self with WrappedCmd := some { wc with StderrSink := some cw1 } }

/-- `CommandExecution.Run`: auto-initialize via `Begin` when unprepared,
start the process when not externally started, bulk-read each attached
pipe, wait, finalize any composite-writer sinks, then classify the wait
result: nil wait error sets `ExitCode := 0`; an exit error with an
extractable status sets `ExitCode` to it (nil returned error in both
cases); a non-extractable status panics (`.error`); any other wait error
is returned with `ExitCode` untouched. -/
def CommandExecution.Run (self : CommandExecution) (env : ExecEnv) :
    Except String (CommandExecution × Option GoError) :=
  let r0 := if self.WrappedCmd.isNone then self.Begin env else (self, none)
  match r0.2 with
  | some err => Except.ok (r0.1, some err)
  | none =>
    match r0.1.WrappedCmd with
    | none => Except.error "nil pointer dereference"
    | some wc =>
      if !wc.ProcessStarted && !env.startOk then
        Except.ok (r0.1, some GoError.startError)
      else
        let self1 := { r0.1 with WrappedCmd := some { wc with ProcessStarted := true } }
        if self1.StdoutReader && !env.stdoutReadOk then
          Except.ok (self1, some (GoError.readError STDOUT))
        else
          let self2 := if self1.StdoutReader then { self1 with Stdout := env.stdoutData } else self1
          if self2.StderrReader && !env.stderrReadOk then
            Except.ok (self2, some (GoError.readError STDERR))
          else
            let self3 := if self2.StderrReader then { self2 with Stderr := env.stderrData } else self2
            let self4 := finalizeStderrSink (finalizeStdoutSink self3)
            match env.waitResult with
            | WaitResult.success => Except.ok ({ self4 with ExitCode := 0 }, none)
            | WaitResult.exitError (some status) =>
              Except.ok ({ self4 with ExitCode := status }, none)
            | WaitResult.exitError none => Except.error "cannot retrieve exit code"
            | WaitResult.otherError => Except.ok (self4, some GoError.waitOtherError)

/-- Modelled from the spec: the external wait collaborator
("`wait(handle) → exit status`").  For a process that ran and exited with
status `n`, `cmd.Wait` returns nil when `n = 0` and an exit error whose
portable `WaitStatus` reports `ExitStatus() = n` when `n ≠ 0`. -/
def waitOf (n : Int) : WaitResult :=
  if n = 0 then WaitResult.success else WaitResult.exitError (some n)

/-- `prepareSshArgs`: the process-wide extra options (the package-level
`ExtraSshOptions`, passed here explicitly), the three fixed safety
options, the host, then the caller's arguments. -/
def prepareSshArgs (ExtraSshOptions : List String) (host : String) (args : List String) :
    List String :=
  let a := ExtraSshOptions ++
    ["-o", "UserKnownHostsFile=/dev/null", "-o", "StrictHostKeyChecking=no",
     "-o", "LogLevel=ERROR", host]
  a ++ args

/-- `NewSsh`. -/
def NewSsh (ExtraSshOptions : List String) (host : String) (args : List String) :
    CommandExecution :=
  New "ssh" (prepareSshArgs ExtraSshOptions host args)

/-- Invariant tying a `CompositeWriter`'s buffer to the pending
(not-yet-terminated) tail `s` of the bytes written so far: the offset is
in range, the unconsumed slice is exactly `s`, and in retention-off mode
the buffer holds nothing but `s` (emitted lines are not retained). -/
def PendInv (keep : Bool) (s : List Nat) (b : simpleGrowingBuffer) : Prop :=
  b.LastNewlineOffset ≤ b.byteBuffer.length ∧ b.Slice = s ∧
    (keep = false → b.byteBuffer = s ∧ b.LastNewlineOffset = 0)

theorem length_slice (b : simpleGrowingBuffer) : b.Slice.length = b.SliceLength := by
  simp [simpleGrowingBuffer.Slice, simpleGrowingBuffer.SliceLength]

theorem indexByte_none {l : List Nat} {c : Nat} (h : indexByte l c = none) :
    ∀ x ∈ l, x ≠ c := by
  induction l with
  | nil => simp
  | cons a l ih =>
    by_cases hac : a = c
    · simp [indexByte, hac] at h
    · simp only [indexByte, if_neg hac, Option.map_eq_none'] at h
      intro x hx
      rcases List.mem_cons.mp hx with h1 | h1
      · exact h1 ▸ hac
      · exact ih h x h1

theorem indexByte_some {l : List Nat} {c : Nat} {i : Nat} (h : indexByte l c = some i) :
    l = l.take i ++ c :: l.drop (i + 1) ∧ (∀ x ∈ l.take i, x ≠ c) ∧ i < l.length := by
  induction l generalizing i with
  | nil => simp [indexByte] at h
  | cons a l ih =>
    by_cases hac : a = c
    · simp only [indexByte, if_pos hac, Option.some.injEq] at h
      subst h
      subst hac
      simp
    · simp only [indexByte, if_neg hac, Option.map_eq_some'] at h
      obtain ⟨j, hj, rfl⟩ := h
      obtain ⟨hdec, hmem, hlt⟩ := ih hj
      refine ⟨?_, ?_, ?_⟩
      · rw [List.take_succ_cons, List.drop_succ_cons, List.cons_append]
        exact congrArg (a :: ·) hdec
      · intro x hx
        rw [List.take_succ_cons] at hx
        rcases List.mem_cons.mp hx with h1 | h1
        · exact h1 ▸ hac
        · exact hmem x h1
      · simpa using Nat.succ_lt_succ hlt

theorem splitNL_no_nl {l : List Nat} (h : ∀ c ∈ l, c ≠ 10) : splitNL l = ([], l) := by
  induction l with
  | nil => rfl
  | cons a l ih =>
    have ha : a ≠ 10 := h a (by simp)
    have ih' := ih fun c hc => h c (by simp [hc])
    simp [splitNL, ha, ih']

theorem splitNL_fst_eq_nil_iff {l : List Nat} : (splitNL l).1 = [] ↔ ∀ c ∈ l, c ≠ 10 := by
  induction l with
  | nil => simp [splitNL]
  | cons a l ih =>
    by_cases ha : a = 10
    · subst ha
      simp [splitNL]
    · cases hr : (splitNL l).1 with
      | nil => simp [splitNL, ha, hr, ← ih]
      | cons x xs => simp [splitNL, ha, hr, ← ih]

theorem splitNL_append_line {l rest : List Nat} (h : ∀ c ∈ l, c ≠ 10) :
    splitNL (l ++ 10 :: rest) = (l :: (splitNL rest).1, (splitNL rest).2) := by
  induction l with
  | nil => simp [splitNL]
  | cons a l ih =>
    have ha : a ≠ 10 := h a (by simp)
    have ih' := ih fun c hc => h c (by simp [hc])
    simp [splitNL, ha, ih']

theorem splitNL_append (a b : List Nat) :
    splitNL (a ++ b) =
      ((splitNL a).1 ++ (splitNL ((splitNL a).2 ++ b)).1,
        (splitNL ((splitNL a).2 ++ b)).2) := by
  induction a with
  | nil => simp [splitNL]
  | cons c a ih =>
    by_cases hc : c = 10
    · subst hc
      simp [splitNL, ih]
    · cases hr : (splitNL a).1 with
      | nil =>
        simp only [List.cons_append, splitNL, ih, hr, List.nil_append, if_neg hc]
        cases hx : (splitNL ((splitNL a).2 ++ b)).1 <;> simp [splitNL, if_neg hc, hx, ih, hr]
      | cons l ls =>
        simp [splitNL, ih, hr, if_neg hc]

theorem splitNL_snd_no_nl {l : List Nat} : ∀ c ∈ (splitNL l).2, c ≠ 10 := by
  induction l with
  | nil => simp [splitNL]
  | cons a l ih =>
    by_cases ha : a = 10
    · subst ha
      simpa [splitNL] using ih
    · cases hr : (splitNL l).1 with
      | nil =>
        intro c hc
        simp only [splitNL, if_neg ha, hr] at hc
        rcases List.mem_cons.mp hc with h1 | h1
        · exact h1 ▸ ha
        · exact ih c h1
      | cons x xs =>
        intro c hc
        simp only [splitNL, if_neg ha, hr] at hc
        exact ih c hc

theorem splitNL_flatten_terminated {Ls : List (List Nat)}
    (hL : ∀ l ∈ Ls, ∀ c ∈ l, c ≠ 10) :
    splitNL ((Ls.map fun l => l ++ [10]).flatten) = (Ls, []) := by
  induction Ls with
  | nil => rfl
  | cons l Ls ih =>
    have h1 : ∀ c ∈ l, c ≠ 10 := hL l (by simp)
    have ih' := ih fun m hm => hL m (by simp [hm])
    simp only [List.map_cons, List.flatten_cons, List.append_assoc, List.singleton_append]
    rw [splitNL_append_line h1, ih']

theorem le_foldr_max {l : List Nat} {x : Nat} (hx : x ∈ l) : x ≤ l.foldr max 0 := by
  induction l with
  | nil => simp at hx
  | cons a l ih =>
    rcases List.mem_cons.mp hx with rfl | h
    · exact Nat.le_max_left _ _
    · exact Nat.le_trans (ih h) (Nat.le_max_right _ _)

theorem pendingLen_le_maxPending (w : List Nat) : (splitNL w).2.length ≤ maxPending w := by
  apply le_foldr_max
  simp only [List.mem_map, List.mem_range]
  exact ⟨w.length, Nat.lt_succ_self _, by simp [pendingLen]⟩

theorem extractLinesFuel_byteBuffer (fuel : Nat) (b : simpleGrowingBuffer) :
    (extractLinesFuel fuel b).2.byteBuffer = b.byteBuffer := by
  induction fuel generalizing b with
  | zero => rfl
  | succ fuel ih =>
    cases h : indexByte b.Slice 10 with
    | none => simp [extractLinesFuel, h]
    | some pos =>
      simp only [extractLinesFuel, h]
      exact (ih _).trans rfl

theorem extractLinesFuel_fst_nil (fuel : Nat) (b : simpleGrowingBuffer)
    (h : (extractLinesFuel fuel b).1 = []) : (extractLinesFuel fuel b).2 = b := by
  cases fuel with
  | zero => rfl
  | succ fuel =>
    cases hi : indexByte b.Slice 10 with
    | none => simp [extractLinesFuel, hi]
    | some pos => simp [extractLinesFuel, hi] at h

theorem extractLinesFuel_spec (fuel : Nat) (b : simpleGrowingBuffer)
    (hwf : b.LastNewlineOffset ≤ b.byteBuffer.length)
    (hfuel : b.SliceLength ≤ fuel) :
    (extractLinesFuel fuel b).1 = (splitNL b.Slice).1 ∧
    (extractLinesFuel fuel b).2.Slice = (splitNL b.Slice).2 ∧
    (extractLinesFuel fuel b).2.LastNewlineOffset ≤
      (extractLinesFuel fuel b).2.byteBuffer.length := by
  induction fuel generalizing b with
  | zero =>
    have hs : b.Slice = [] := by
      have h1 := length_slice b
      have h2 : b.Slice.length = 0 := by omega
      exact List.length_eq_zero.mp h2
    simp [extractLinesFuel, hs, splitNL, hwf]
  | succ fuel ih =>
    cases h : indexByte b.Slice 10 with
    | none =>
      have hno := indexByte_none h
      simp [extractLinesFuel, h, splitNL_no_nl hno, hwf]
    | some pos =>
      obtain ⟨hdec, hmem, hlt⟩ := indexByte_some h
      have hsll : b.Slice.length = b.byteBuffer.length - b.LastNewlineOffset := by
        simp [simpleGrowingBuffer.Slice]
      have hwf' : (b.IncrementOffset (pos + 1)).LastNewlineOffset ≤
          (b.IncrementOffset (pos + 1)).byteBuffer.length := by
        simp only [simpleGrowingBuffer.IncrementOffset]
        omega
      have hfuel' : (b.IncrementOffset (pos + 1)).SliceLength ≤ fuel := by
        simp only [simpleGrowingBuffer.IncrementOffset, simpleGrowingBuffer.SliceLength] at *
        omega
      have hslice' : (b.IncrementOffset (pos + 1)).Slice = b.Slice.drop (pos + 1) := by
        simp [simpleGrowingBuffer.IncrementOffset, simpleGrowingBuffer.Slice, List.drop_drop]
      obtain ⟨ih1, ih2, ih3⟩ := ih (b.IncrementOffset (pos + 1)) hwf' hfuel'
      have hsplit : splitNL b.Slice =
          (b.Slice.take pos :: (splitNL (b.Slice.drop (pos + 1))).1,
            (splitNL (b.Slice.drop (pos + 1))).2) := by
        conv_lhs => rw [hdec]
        exact splitNL_append_line hmem
      refine ⟨?_, ?_, ?_⟩
      · simp [extractLinesFuel, h, simpleGrowingBuffer.SliceNext, ih1, hslice', hsplit]
      · simp [extractLinesFuel, h, ih2, hslice', hsplit]
      · simpa [extractLinesFuel, h] using ih3

theorem extractLines_byteBuffer (b : simpleGrowingBuffer) :
    (extractLines b).2.byteBuffer = b.byteBuffer :=
  extractLinesFuel_byteBuffer _ _

theorem extractLines_spec (b : simpleGrowingBuffer)
    (hwf : b.LastNewlineOffset ≤ b.byteBuffer.length) :
    (extractLines b).1 = (splitNL b.Slice).1 ∧
    (extractLines b).2.Slice = (splitNL b.Slice).2 ∧
    (extractLines b).2.LastNewlineOffset ≤ (extractLines b).2.byteBuffer.length :=
  extractLinesFuel_spec b.SliceLength b hwf le_rfl

theorem Truncate_byteBuffer (b : simpleGrowingBuffer) : b.Truncate.byteBuffer = b.Slice := rfl

theorem Truncate_offset (b : simpleGrowingBuffer) : b.Truncate.LastNewlineOffset = 0 := rfl

theorem Truncate_slice (b : simpleGrowingBuffer) : b.Truncate.Slice = b.Slice := by
  simp [simpleGrowingBuffer.Truncate, simpleGrowingBuffer.Slice]

theorem Write_pending (cw : CompositeWriter) (s p : List Nat)
    (hcb : cw.hasCallback = true)
    (hinv : PendInv cw.keepBuffer s cw.buffer) :
    (cw.Write p).2 = (splitNL (s ++ p)).1 ∧
    PendInv cw.keepBuffer (splitNL (s ++ p)).2 (cw.Write p).1.buffer ∧
    (cw.Write p).1.keepBuffer = cw.keepBuffer ∧
    (cw.Write p).1.hasCallback = cw.hasCallback := by
  obtain ⟨hwf, hsl, hkf⟩ := hinv
  have hbA : (cw.buffer.Append p).Slice = s ++ p := by
    simp only [simpleGrowingBuffer.Append, simpleGrowingBuffer.Slice] at hsl ⊢
    rw [List.drop_append_of_le_length hwf, hsl]
  have hbWF : (cw.buffer.Append p).LastNewlineOffset ≤
      (cw.buffer.Append p).byteBuffer.length := by
    simp only [simpleGrowingBuffer.Append, List.length_append]
    omega
  obtain ⟨he1, he2, he3⟩ := extractLines_spec (cw.buffer.Append p) hbWF
  have hbb := extractLines_byteBuffer (cw.buffer.Append p)
  rw [hbA] at he1 he2
  have hW : cw.Write p =
      ({ cw with buffer :=
          if !(splitNL (s ++ p)).1.isEmpty && !cw.keepBuffer then
            (extractLines (cw.buffer.Append p)).2.Truncate
          else (extractLines (cw.buffer.Append p)).2 },
        (splitNL (s ++ p)).1) := by
    simp [CompositeWriter.Write, hcb, he1]
  rw [hW]
  refine ⟨rfl, ?_, rfl, rfl⟩
  cases hk : cw.keepBuffer with
  | true =>
    simp only [Bool.not_true, Bool.and_false, if_false]
    exact ⟨he3, he2, by simp⟩
  | false =>
    cases hemp : (splitNL (s ++ p)).1.isEmpty with
    | false =>
      simp only [hemp, Bool.not_false, Bool.and_true, if_true]
      refine ⟨?_, ?_, ?_⟩
      · rw [Truncate_offset]
        exact Nat.zero_le _
      · rw [Truncate_slice]
        exact he2
      · intro
        rw [Truncate_byteBuffer, Truncate_offset]
        exact ⟨he2, rfl⟩
    | true =>
      have hnil : (splitNL (s ++ p)).1 = [] := List.isEmpty_iff.mp hemp
      have hno : ∀ c ∈ s ++ p, c ≠ 10 := splitNL_fst_eq_nil_iff.mp hnil
      have hsp : splitNL (s ++ p) = ([], s ++ p) := splitNL_no_nl hno
      have hfix : (extractLines (cw.buffer.Append p)).2 = cw.buffer.Append p := by
        apply extractLinesFuel_fst_nil
        exact he1.trans hnil
      obtain ⟨hb1, hb2⟩ := hkf hk
      simp only [hemp, Bool.not_true, Bool.false_and, if_false, hfix, hsp]
      refine ⟨hbWF, hbA, fun _ => ⟨?_, ?_⟩⟩
      · simp [simpleGrowingBuffer.Append, hb1]
      · simp [simpleGrowingBuffer.Append, hb2]

theorem runWrites_pending (chunks : List (List Nat)) (cw : CompositeWriter) (s : List Nat)
    (hcb : cw.hasCallback = true) (hs : ∀ c ∈ s, c ≠ 10)
    (hinv : PendInv cw.keepBuffer s cw.buffer) :
    (runWrites cw chunks).2 = (splitNL (s ++ chunks.flatten)).1 ∧
    PendInv (runWrites cw chunks).1.keepBuffer (splitNL (s ++ chunks.flatten)).2
      (runWrites cw chunks).1.buffer ∧
    (runWrites cw chunks).1.keepBuffer = cw.keepBuffer ∧
    (runWrites cw chunks).1.hasCallback = true := by
  induction chunks generalizing cw s with
  | nil =>
    have hsp : splitNL s = ([], s) := splitNL_no_nl hs
    refine ⟨?_, ?_, rfl, hcb⟩
    · simp [runWrites, hsp]
    · simpa [runWrites, hsp] using hinv
  | cons p ps ih =>
    obtain ⟨hw1, hw2, hw3, hw4⟩ := Write_pending cw s p hcb hinv
    have hs1 : ∀ c ∈ (splitNL (s ++ p)).2, c ≠ 10 := splitNL_snd_no_nl
    have hcb1 : (cw.Write p).1.hasCallback = true := hw4.trans hcb
    have hinv1 : PendInv (cw.Write p).1.keepBuffer (splitNL (s ++ p)).2 (cw.Write p).1.buffer := by
      rw [hw3]; exact hw2
    obtain ⟨hr1, hr2, hr3, hr4⟩ := ih (cw.Write p).1 ((splitNL (s ++ p)).2) hcb1 hs1 hinv1
    have hsplit := splitNL_append (s ++ p) ps.flatten
    have hflat : s ++ (p :: ps).flatten = (s ++ p) ++ ps.flatten := by
      simp [List.flatten_cons, List.append_assoc]
    refine ⟨?_, ?_, ?_, ?_⟩
    · show (cw.Write p).2 ++ (runWrites (cw.Write p).1 ps).2 = _
      rw [hw1, hr1, hflat, hsplit]
    · show PendInv (runWrites (cw.Write p).1 ps).1.keepBuffer _ _
      rw [hflat, hsplit]
      exact hr2
    · show (runWrites (cw.Write p).1 ps).1.keepBuffer = cw.keepBuffer
      rw [hr3, hw3]
    · exact hr4

theorem runWrites_fresh (t : Nat) (payload : Int) (keep : Bool) (chunks : List (List Nat)) :
    (runWrites (NewCompositeWriter t true payload keep) chunks).2 =
      (splitNL chunks.flatten).1 ∧
    PendInv keep (splitNL chunks.flatten).2
      (runWrites (NewCompositeWriter t true payload keep) chunks).1.buffer ∧
    (runWrites (NewCompositeWriter t true payload keep) chunks).1.keepBuffer = keep ∧
    (runWrites (NewCompositeWriter t true payload keep) chunks).1.hasCallback = true := by
  have h0 : PendInv (NewCompositeWriter t true payload keep).keepBuffer []
      (NewCompositeWriter t true payload keep).buffer := by
    refine ⟨by simp [NewCompositeWriter], by simp [NewCompositeWriter, simpleGrowingBuffer.Slice], ?_⟩
    intro
    simp [NewCompositeWriter]
  obtain ⟨h1, h2, h3, h4⟩ :=
    runWrites_pending chunks (NewCompositeWriter t true payload keep) [] rfl (by simp) h0
  rw [List.nil_append] at h1 h2
  rw [h3] at h2
  exact ⟨h1, h2, h3, h4⟩

theorem Write_keepBuffer_eq (cw : CompositeWriter) (p : List Nat) :
    (cw.Write p).1.keepBuffer = cw.keepBuffer := by
  cases h : cw.hasCallback <;> simp [CompositeWriter.Write, h]

theorem Write_keep_byteBuffer (cw : CompositeWriter) (p : List Nat) (hk : cw.keepBuffer = true) :
    (cw.Write p).1.buffer.byteBuffer = cw.buffer.byteBuffer ++ p := by
  cases h : cw.hasCallback with
  | false => simp [CompositeWriter.Write, h, simpleGrowingBuffer.Append]
  | true =>
    simp only [CompositeWriter.Write, h, hk, Bool.not_true, Bool.and_false, if_true, if_false]
    exact (extractLines_byteBuffer _).trans rfl

theorem runWrites_keep_byteBuffer (chunks : List (List Nat)) (cw : CompositeWriter)
    (hk : cw.keepBuffer = true) :
    (runWrites cw chunks).1.buffer.byteBuffer = cw.buffer.byteBuffer ++ chunks.flatten ∧
    (runWrites cw chunks).1.keepBuffer = true := by
  induction chunks generalizing cw with
  | nil => simpa [runWrites] using hk
  | cons p ps ih =>
    have h1 := Write_keep_byteBuffer cw p hk
    have h2 : (cw.Write p).1.keepBuffer = true := (Write_keepBuffer_eq cw p).trans hk
    obtain ⟨ha, hb⟩ := ih (cw.Write p).1 h2
    refine ⟨?_, hb⟩
    show (runWrites (cw.Write p).1 ps).1.buffer.byteBuffer = _
    rw [ha, h1, List.flatten_cons, List.append_assoc]

theorem Finalize_keep_byteBuffer (cw : CompositeWriter) (hk : cw.keepBuffer = true) :
    cw.Finalize.1.buffer.byteBuffer = cw.buffer.byteBuffer ∧
    cw.Finalize.1.keepBuffer = true := by
  cases hcb : cw.hasCallback with
  | false => simpa [CompositeWriter.Finalize, hcb] using hk
  | true =>
    by_cases hp : 0 < cw.buffer.SliceLength <;>
      simp [CompositeWriter.Finalize, hcb, hk, hp, simpleGrowingBuffer.IncrementOffset]

theorem Finalize_emits (cw : CompositeWriter) (hcb : cw.hasCallback = true) :
    cw.Finalize.2 = if cw.buffer.Slice = [] then [] else [cw.buffer.Slice] := by
  have hl := length_slice cw.buffer
  by_cases hp : 0 < cw.buffer.SliceLength
  · have hne : cw.buffer.Slice ≠ [] := by
      intro hnil
      rw [hnil] at hl
      simp at hl
      omega
    simp only [CompositeWriter.Finalize, hcb, hp, if_true, if_neg hne]
    have : cw.buffer.SliceNext cw.buffer.SliceLength = cw.buffer.Slice := by
      rw [simpleGrowingBuffer.SliceNext, ← hl, List.take_length]
    simp [this]
  · have hnil : cw.buffer.Slice = [] := by
      have : cw.buffer.Slice.length = 0 := by omega
      exact List.length_eq_zero.mp this
    simp [CompositeWriter.Finalize, hcb, hp, hnil]

theorem Finalize_slice_zero (cw : CompositeWriter) (h : cw.buffer.SliceLength = 0) :
    cw.Finalize = (cw, []) := by
  cases hcb : cw.hasCallback <;> simp [CompositeWriter.Finalize, hcb, h]

/-- Claim C1: for every sequence of byte chunks written to a
`CompositeWriter` with a registered line callback, if the concatenation of
all chunks is `L1\nL2\n...Ln\n` then the callback is invoked exactly `n`
times, with `L1, ..., Ln` (terminators excluded) in order, independently
of how the bytes are partitioned into chunks. -/
theorem lineCallback_chunking_independent (t : Nat) (payload : Int) (keep : Bool)
    (Ls chunks : List (List Nat))
    (hL : ∀ l ∈ Ls, ∀ c ∈ l, c ≠ 10)
    (hchunks : chunks.flatten = (Ls.map fun l => l ++ [10]).flatten) :
    (runWrites (NewCompositeWriter t true payload keep) chunks).2 = Ls := by
  obtain ⟨h1, -, -, -⟩ := runWrites_fresh t payload keep chunks
  rw [h1, hchunks, splitNL_flatten_terminated hL]

/-- Witness for C1: the stream `"a\nb\n"` delivered one byte at a time
yields exactly the callback lines `"a"`, `"b"`. -/
theorem lineCallback_chunking_independent_witness :
    (runWrites (NewCompositeWriter 1 true 0 false) [[97], [10], [98], [10]]).2 =
      [[97], [98]] :=
  lineCallback_chunking_independent 1 0 false [[97], [98]] [[97], [10], [98], [10]]
    (by decide) (by decide)

/-- Claim C2: in retention-on mode, the full history (`ToString`) after
any write sequence followed by `Finalize` is exactly the concatenation of
all bytes ever written, with or without a registered callback. -/
theorem retention_full_history (t : Nat) (hasCb : Bool) (payload : Int)
    (chunks : List (List Nat)) :
    ((runWrites (NewCompositeWriter t hasCb payload true) chunks).1.Finalize).1.ToString
      = some chunks.flatten := by
  obtain ⟨h1, h2⟩ := runWrites_keep_byteBuffer chunks (NewCompositeWriter t hasCb payload true) rfl
  obtain ⟨h3, h4⟩ := Finalize_keep_byteBuffer _ h2
  rw [CompositeWriter.ToString, if_neg (by rw [h4]; simp)]
  rw [simpleGrowingBuffer.ToString, h3, h1]
  rfl

/-- Claim C3: with a registered callback, a write sequence whose
concatenation ends in a non-empty unterminated suffix produces exactly
that suffix as one extra callback at `Finalize` and never during any
`Write` (the writes emit exactly the terminated lines); if the
concatenation ends with a newline, `Finalize` emits nothing. -/
theorem trailing_partial_line_at_finalize (t : Nat) (payload : Int) (keep : Bool)
    (Ls chunks : List (List Nat)) (tl : List Nat)
    (hL : ∀ l ∈ Ls, ∀ c ∈ l, c ≠ 10) (htl : ∀ c ∈ tl, c ≠ 10)
    (hchunks : chunks.flatten = (Ls.map fun l => l ++ [10]).flatten ++ tl) :
    (runWrites (NewCompositeWriter t true payload keep) chunks).2 = Ls ∧
    ((runWrites (NewCompositeWriter t true payload keep) chunks).1.Finalize).2
      = if tl = [] then [] else [tl] := by
  obtain ⟨h1, h2, h3, h4⟩ := runWrites_fresh t payload keep chunks
  have hsp : splitNL chunks.flatten = (Ls, tl) := by
    rw [hchunks, splitNL_append, splitNL_flatten_terminated hL]
    simp [splitNL_no_nl htl]
  constructor
  · rw [h1, hsp]
  · obtain ⟨-, hsl, -⟩ := h2
    rw [Finalize_emits _ h4, hsl, hsp]

/-- Witness for C3: writing `"a\n"` then `"c"` emits only `"a"` during the
writes and exactly `"c"` at `Finalize`. -/
theorem trailing_partial_line_at_finalize_witness :
    (runWrites (NewCompositeWriter 1 true 0 true) [[97, 10], [99]]).2 = [[97]] ∧
    ((runWrites (NewCompositeWriter 1 true 0 true) [[97, 10], [99]]).1.Finalize).2 = [[99]] :=
  trailing_partial_line_at_finalize 1 0 true [[97]] [[97, 10], [99]] [99]
    (by decide) (by decide) (by decide)

/-- Claim C4 counterexample: the claim quantifies over every
retention-off `CompositeWriter`, but a retention-off writer with no
registered callback never truncates: after writing `"a\nb"` its buffer
holds all 3 bytes, exceeding the longest unterminated line seen (1). -/
theorem retention_off_bound_fails_without_callback :
    ¬ ((runWrites (NewCompositeWriter 1 false 0 false) [[97, 10, 98]]).1.buffer.byteBuffer.length
        ≤ maxPending [97, 10, 98]) := by decide

/-- Claim C4 (amended: for retention-off writers with a registered
callback): after every completed `Write` the buffer holds exactly the
bytes after the last newline written so far — no byte of an emitted line
is retained — so its length never exceeds the longest unterminated line
seen so far in the stream. -/
theorem retention_off_buffer_bounded (t : Nat) (payload : Int) (chunks : List (List Nat)) :
    (runWrites (NewCompositeWriter t true payload false) chunks).1.buffer.byteBuffer
      = (splitNL chunks.flatten).2 ∧
    (runWrites (NewCompositeWriter t true payload false) chunks).1.buffer.byteBuffer.length
      ≤ maxPending chunks.flatten := by
  obtain ⟨-, h2, h3, -⟩ := runWrites_fresh t payload false chunks
  obtain ⟨-, -, hkf⟩ := h2
  obtain ⟨hbb, -⟩ := hkf rfl
  refine ⟨hbb, ?_⟩
  rw [hbb]
  exact pendingLen_le_maxPending chunks.flatten

/-- Claim C7: `ToString` on a retention-off writer always panics
(modelled as `none`) and never returns a string; on a retention-on
writer it never panics and returns the accumulated history. -/
theorem toString_requires_retention (cw : CompositeWriter) :
    (cw.keepBuffer = false → cw.ToString = none) ∧
    (cw.keepBuffer = true → cw.ToString = some cw.buffer.byteBuffer) := by
  constructor <;> intro h <;> simp [CompositeWriter.ToString, h, simpleGrowingBuffer.ToString]

/-- Witness for C7 at concrete writers in both retention modes. -/
theorem toString_requires_retention_witness :
    (NewCompositeWriter 1 true 0 false).ToString = none ∧
    (NewCompositeWriter 1 true 0 true).ToString = some [] :=
  ⟨(toString_requires_retention (NewCompositeWriter 1 true 0 false)).1 rfl,
    (toString_requires_retention (NewCompositeWriter 1 true 0 true)).2 rfl⟩

/-- Claim C10: `Finalize` is idempotent in every state and both retention
modes: a second `Finalize` emits no callback and leaves the buffer
(contents and offset) unchanged. -/
theorem finalize_idempotent (cw : CompositeWriter) :
    cw.Finalize.1.Finalize = (cw.Finalize.1, []) := by
  cases hcb : cw.hasCallback with
  | false =>
    have h1 : cw.Finalize = (cw, []) := by simp [CompositeWriter.Finalize, hcb]
    rw [h1]
    exact h1
  | true =>
    by_cases hp : 0 < cw.buffer.SliceLength
    · apply Finalize_slice_zero
      simp only [CompositeWriter.Finalize, hcb, hp, if_true]
      cases hk : cw.keepBuffer with
      | false => simp [simpleGrowingBuffer.Reset, simpleGrowingBuffer.SliceLength]
      | true =>
        simp [simpleGrowingBuffer.IncrementOffset, simpleGrowingBuffer.SliceLength]
        omega
    · have h1 : cw.Finalize = (cw, []) := by simp [CompositeWriter.Finalize, hcb, hp]
      rw [h1]
      exact h1

/-- Claim C8: the remote-invocation builder produces the transport binary
`ssh` with argument list: process-wide extra options, the six fixed
safety-option tokens, the host, then the caller's arguments, in that
exact order. -/
theorem ssh_args_order (extra : List String) (host : String) (args : List String) :
    (NewSsh extra host args).Command = "ssh" ∧
    (NewSsh extra host args).Args =
      extra ++
        ["-o", "UserKnownHostsFile=/dev/null", "-o", "StrictHostKeyChecking=no",
          "-o", "LogLevel=ERROR"] ++ [host] ++ args := by
  refine ⟨rfl, ?_⟩
  simp [NewSsh, New, prepareSshArgs]

/-- Claim C5: for every command whose process runs and exits with status
`n` (wait outcome `waitOf n`), `Run` returns a nil error and sets
`ExitCode` to exactly `n`; a non-zero exit status is never surfaced as an
error. -/
theorem exit_status_roundtrip (command : String) (args : List String) (env : ExecEnv) (n : Int)
    (h1 : env.stdoutPipeOk = true) (h2 : env.stderrPipeOk = true) (h3 : env.startOk = true)
    (h4 : env.stdoutReadOk = true) (h5 : env.stderrReadOk = true)
    (hw : env.waitResult = waitOf n) :
    ∃ final : CommandExecution,
      (New command args).Run env = Except.ok (final, none) ∧ final.ExitCode = n := by
  by_cases hn : n = 0 <;>
    simp [CommandExecution.Run, CommandExecution.Begin, New, h1, h2, h3, h4, h5, hw, waitOf,
      hn, finalizeStdoutSink, finalizeStderrSink]

/-- Witness for C5: running `false` (exit status 1) yields exit code 1 and
no error. -/
theorem exit_status_roundtrip_witness :
    ∃ final : CommandExecution,
      (New "false" []).Run
          { stdoutPipeOk := true, stderrPipeOk := true, osEnviron := [], startOk := true,
            stdoutReadOk := true, stderrReadOk := true, stdoutData := [], stderrData := [],
            waitResult := waitOf 1 } = Except.ok (final, none) ∧
      final.ExitCode = 1 :=
  exit_status_roundtrip "false" []
    { stdoutPipeOk := true, stderrPipeOk := true, osEnviron := [], startOk := true,
      stdoutReadOk := true, stderrReadOk := true, stdoutData := [], stderrData := [],
      waitResult := waitOf 1 } 1 rfl rfl rfl rfl rfl rfl

/-- Claim C6: `ExitCode` is the sentinel `-1` from creation (`New`),
stays `-1` through `Begin` and through every error return of `Run`
(including a wait error that is not an exit-status error), and on a nil
error return it is `0` exactly on confirmed normal termination and the
reported exit status otherwise. -/
theorem exit_code_sentinel (command : String) (args : List String) (env : ExecEnv) :
    (New command args).ExitCode = -1 ∧
    ((New command args).Begin env).1.ExitCode = -1 ∧
    (∀ s e, (New command args).Run env = Except.ok (s, some e) → s.ExitCode = -1) ∧
    (∀ s, (New command args).Run env = Except.ok (s, none) →
      (env.waitResult = WaitResult.success ∧ s.ExitCode = 0) ∨
      env.waitResult = WaitResult.exitError (some s.ExitCode)) := by
  refine ⟨rfl, ?_, ?_⟩
  · cases hpo : env.stdoutPipeOk <;> cases hpe : env.stderrPipeOk <;>
      simp [CommandExecution.Begin, New, hpo, hpe]
  · rcases env with ⟨po, pe, osE, so, r1, r2, d1, d2, w⟩
    cases po <;> cases pe <;> cases so <;> cases r1 <;> cases r2 <;>
      rcases w with _ | (_ | k) | _ <;>
      simp [CommandExecution.Run, CommandExecution.Begin, New,
        finalizeStdoutSink, finalizeStderrSink]

/-- Witness for C6: a freshly created request carries the sentinel. -/
theorem exit_code_sentinel_witness : (New "x" []).ExitCode = -1 :=
  (exit_code_sentinel "x" []
    { stdoutPipeOk := true, stderrPipeOk := true, osEnviron := [], startOk := true,
      stdoutReadOk := true, stderrReadOk := true, stdoutData := [], stderrData := [],
      waitResult := WaitResult.otherError }).1

/-- Claim C9: if `Begin` returns an error (a pipe-attachment failure) the
`WrappedCmd` handle keeps its previous value (so an unprepared request
remains unprepared); `WrappedCmd` is assigned exactly when every
preparation step succeeded; and `Run` on an unprepared request re-attempts
preparation, surfacing `Begin`'s error. -/
theorem begin_failure_leaves_unprepared (self : CommandExecution) (env : ExecEnv) :
    (∀ e, (self.Begin env).2 = some e → (self.Begin env).1.WrappedCmd = self.WrappedCmd) ∧
    ((self.Begin env).2 = none → (self.Begin env).1.WrappedCmd.isSome = true) ∧
    (∀ e, self.WrappedCmd = none → (self.Begin env).2 = some e →
      self.Run env = Except.ok ((self.Begin env).1, some e)) := by
  refine ⟨?_, ?_, ?_⟩
  · intro e
    cases h1 : self.AutoReadStdout <;> cases h2 : self.AutoReadStderr <;>
      cases h3 : env.stdoutPipeOk <;> cases h4 : env.stderrPipeOk <;>
      simp [CommandExecution.Begin, h1, h2, h3, h4]
  · cases h1 : self.AutoReadStdout <;> cases h2 : self.AutoReadStderr <;>
      cases h3 : env.stdoutPipeOk <;> cases h4 : env.stderrPipeOk <;>
      simp [CommandExecution.Begin, h1, h2, h3, h4]
  · intro e hW hB
    have hiso : self.WrappedCmd.isNone = true := by rw [hW]; rfl
    simp only [CommandExecution.Run, hiso, if_true, hB]

/-- Witness for C9: a stdout-pipe failure during `Begin` leaves the
request unprepared. -/
theorem begin_failure_leaves_unprepared_witness :
    ((New "x" []).Begin
        { stdoutPipeOk := false, stderrPipeOk := true, osEnviron := [], startOk := true,
          stdoutReadOk := true, stderrReadOk := true, stdoutData := [], stderrData := [],
          waitResult := WaitResult.success }).1.WrappedCmd = none :=
  (begin_failure_leaves_unprepared (New "x" [])
    { stdoutPipeOk := false, stderrPipeOk := true, osEnviron := [], startOk := true,
      stdoutReadOk := true, stderrReadOk := true, stdoutData := [], stderrData := [],
      waitResult := WaitResult.success }).1 (GoError.pipeError STDOUT) rfl

end shell
